/-
Verification of the Slurm credential subsystem (cred.c) against its
natural-language specification.

The C source is shallowly embedded: machine integers become Nat with
explicit `% 2^32` where wraparound matters, nullable pointers become
Option, time_t values become Nat (seconds), and functions that set a
typed errno and return NULL become Except-valued functions.  External
library routines that the credential code merely consumes (hostlist,
bitstring formatting, the run-length index helper) are modelled from the
specification's description of their interfaces; each such definition is
marked `Modelled from the spec:` in its doc comment.
-/
import Mathlib

namespace SlurmCred

/-- `SLURM_AUTH_NOBODY` sentinel uid/gid.  Modelled from the spec: the
constant's numeric value lives outside the provided sources; the spec
only requires a fixed sentinel rejected by all create paths. -/
def SLURM_AUTH_NOBODY : Nat := 0xfffffffe

/-- `SLURM_BATCH_SCRIPT` sentinel step id.  Modelled from the spec: the
numeric value lives outside the provided sources; only its role as a
distinguished batch-step marker matters here. -/
def SLURM_BATCH_SCRIPT : Nat := 0xfffffffa

/-- `FILE_BCAST_SO` shared-object flag bit.  Modelled from the spec: the
numeric value lives outside the provided sources; the code only tests
`flags & FILE_BCAST_SO`. -/
def FILE_BCAST_SO : Nat := 4

/-- Typed errors surfaced by the credential core (§7 of the spec;
`slurm_seterrno` values in cred.c). -/
inductive CredError where
  | invalidJobCredential
  | credentialExpired
  deriving DecidableEq, Repr

/-- The argument bundle carried inside a job credential
(`slurm_cred_arg_t`), restricted to the fields read by the functions
under verification.  Nullable arrays are `Option`; host-range strings
are modelled as the expanded node-name list (the hostlist library is an
external collaborator). -/
structure SlurmCredArg where
  uid : Nat
  gid : Nat
  step_id : Nat
  job_hostlist : List String
  step_hostlist : List String
  job_nhosts : Nat
  sockets_per_node : List Nat
  cores_per_socket : List Nat
  sock_core_rep_count : Option (List Nat)
  core_array_size : Nat
  job_core_bitmap : List Bool
  step_core_bitmap : List Bool
  job_mem_alloc : List Nat
  job_mem_alloc_rep_count : List Nat
  step_mem_alloc : Option (List Nat)
  step_mem_alloc_rep_count : List Nat
  deriving DecidableEq, Repr

/-- A job credential (`slurm_cred_t`): the verified flag, creation time
and argument bundle.  The rwlock, magic sentinel and cached pack buffer
are concurrency/memory artifacts outside the functional embedding. -/
structure SlurmCredT where
  verified : Bool
  ctime : Nat
  arg : SlurmCredArg
  deriving DecidableEq, Repr

/-- `slurm_cred_verify` from cred.c: under the read lock, fail with
`ESLURMD_INVALID_JOB_CREDENTIAL` when `!verified`, fail with
`ESLURMD_CREDENTIAL_EXPIRED` when `now > ctime + cred_expire`, otherwise
return the argument bundle.  `now` and the global `cred_expire` are
explicit parameters. -/
def slurm_cred_verify (cred : SlurmCredT) (now cred_expire : Nat) :
    Except CredError SlurmCredArg :=
  if !cred.verified then
    .error .invalidJobCredential
  else if now > cred.ctime + cred_expire then
    .error .credentialExpired
  else
    .ok cred.arg

/-- The value of a byte read through C `char`, which is signed on slurm's
mainstream targets (x86-64 Linux): bytes at or above 0x80 sign-extend to
negative int values. -/
def signedByte (b : Nat) : Int :=
  if b < 128 then (b : Int) else (b : Int) - 256

/-- The loop body of `_sbcast_cache_hash` from cred.c: walk the signature
two bytes at a time, accumulating `(signature[i] << 8) + signature[i+1]`
into a `uint32_t`.  The bytes are read through signed `char`, so each is
`signedByte`; the left shift of a negative value (formally UB in C) is
modelled as the arithmetic `· * 256` mainstream compilers produce; the
int sum's conversion to `uint32_t` is the euclidean `% 2^32`.  For an
odd-length string the final read of `signature[i+1]` hits the
terminating NUL, modelled by `getD _ 0`. -/
def sbcastCacheHashGo (sig : List Nat) (len : Nat) (i hash : Nat) : Nat :=
  if i < len then
    sbcastCacheHashGo sig len (i + 2)
      ((((hash : Int) + signedByte (sig.getD i 0) * 256 +
          signedByte (sig.getD (i + 1) 0)) % 2 ^ 32).toNat)
  else
    hash
termination_by len - i

/-- `_sbcast_cache_hash` from cred.c (leading underscore dropped): hash of
a credential signature, given as its byte list (strlen bytes, NUL
excluded). -/
def sbcast_cache_hash (sig : List Nat) : Nat :=
  sbcastCacheHashGo sig sig.length 0 0

/-- The specification's description of the hash: the sum over consecutive
non-overlapping byte pairs of the 16-bit big-endian value
`byte[i]*256 + byte[i+1]`, the final pair of an odd-length string being
the last byte paired with the terminating NUL. -/
def bePairSum : List Nat → Nat
  | [] => 0
  | [a] => a * 256
  | a :: b :: rest => a * 256 + b + bePairSum rest

/-- Launch-parameter feature flags set by `cred_g_init`. -/
structure LaunchFlags where
  enable_nss_slurm : Bool
  enable_send_gids : Bool
  deriving DecidableEq, Repr

/-- Case-insensitive substring test, modelling `xstrcasestr` (external
string helper). -/
def strCaseContains (hay pat : String) : Bool :=
  decide ((pat.toList.map Char.toLower) <:+: (hay.toList.map Char.toLower))

/-- The launch-parameter scan in `cred_g_init` from cred.c: starting from
the static defaults `enable_nss_slurm = false`, `enable_send_gids =
true`, an `if / else if` chain sets `enable_nss_slurm` when the
configuration string contains `enable_nss_slurm`, and only otherwise
consults `disable_send_gids`. -/
def cred_g_init_flags (launch_params : String) : LaunchFlags :=
  if strCaseContains launch_params "enable_nss_slurm" then
    { enable_nss_slurm := true, enable_send_gids := true }
  else if strCaseContains launch_params "disable_send_gids" then
    { enable_nss_slurm := false, enable_send_gids := false }
  else
    { enable_nss_slurm := false, enable_send_gids := true }

/-- An sbcast (broadcast) credential (`sbcast_cred_t`), restricted to the
fields read by `extract_sbcast_cred`.  The signature is its byte list
(strlen bytes). -/
structure SbcastCredT where
  ctime : Nat
  expiration : Nat
  jobid : Nat
  het_job_id : Nat
  step_id : Nat
  uid : Nat
  gid : Nat
  user_name : String
  gids : List Nat
  nodes : String
  signature : List Nat
  verified : Bool
  deriving DecidableEq, Repr

/-- One record of the process-wide anti-replay cache
(`struct sbcast_cache`). -/
structure SbcastCache where
  expire : Nat
  value : Nat
  deriving DecidableEq, Repr

/-- The extracted broadcast argument bundle (`sbcast_cred_arg_t`), as
populated at the end of `extract_sbcast_cred`. -/
structure SbcastCredArg where
  job_id : Nat
  step_id : Nat
  uid : Nat
  gid : Nat
  user_name : String
  gids : List Nat
  nodes : String
  deriving DecidableEq, Repr

/-- Failure reasons of `extract_sbcast_cred` (the C function logs and
returns NULL; the branches are distinguished here as typed errors,
matching §7 of the spec). -/
inductive ExtractErr where
  | expired
  | notVerified
  | replayRejected
  | nobodyUid
  | nobodyGid
  deriving DecidableEq, Repr

/-- `_sbcast_cache_add` from cred.c: append `(expiration,
hash(signature))` to the cache list. -/
def sbcast_cache_add (cred : SbcastCredT) (cache : List SbcastCache) :
    List SbcastCache :=
  cache ++ [{ expire := cred.expiration, value := sbcast_cache_hash cred.signature }]

/-- The cache scan loop of `extract_sbcast_cred`: walk the list; stop with
a match when a record has `expire == cred.expiration` and `value ==
sig_num`; delete (skip) any record with `expire ≤ now` encountered
before that.  Returns the match flag and the cache as left by the
iterator. -/
def sbcastScan (exp sigNum now : Nat) : List SbcastCache → Bool × List SbcastCache
  | [] => (false, [])
  | r :: rest =>
    if r.expire = exp ∧ r.value = sigNum then
      (true, r :: rest)
    else if r.expire ≤ now then
      sbcastScan exp sigNum now rest
    else
      let (found, rest') := sbcastScan exp sigNum now rest
      (found, r :: rest')

/-- The argument bundle built by `extract_sbcast_cred` on success. -/
def sbcastArgOf (cred : SbcastCredT) : SbcastCredArg :=
  { job_id := cred.jobid
    step_id := cred.step_id
    uid := cred.uid
    gid := cred.gid
    user_name := cred.user_name
    gids := cred.gids
    nodes := cred.nodes }

/-- `extract_sbcast_cred` from cred.c.  `now` is explicit; the
process-wide cache list is threaded as state and always returned (the C
function mutates it even on some failure paths).
Order of checks, as in the source: expiration; then for `block_no == 1`
without the `FILE_BCAST_SO` flag require `verified` and seed the cache,
otherwise scan the cache (purging stale records) and require a match;
then reject `SLURM_AUTH_NOBODY` uid/gid; finally build the bundle. -/
def extract_sbcast_cred (cred : SbcastCredT) (block_no flags : Nat)
    (cache : List SbcastCache) (now : Nat) :
    List SbcastCache × Except ExtractErr SbcastCredArg :=
  if now > cred.expiration then
    (cache, .error .expired)
  else if block_no = 1 ∧ flags &&& FILE_BCAST_SO = 0 then
    if !cred.verified then
      (cache, .error .notVerified)
    else
      let cache' := sbcast_cache_add cred cache
      if cred.uid = SLURM_AUTH_NOBODY then (cache', .error .nobodyUid)
      else if cred.gid = SLURM_AUTH_NOBODY then (cache', .error .nobodyGid)
      else (cache', .ok (sbcastArgOf cred))
  else
    let sigNum := sbcast_cache_hash cred.signature
    let (found, cache') := sbcastScan cred.expiration sigNum now cache
    if !found then
      (cache', .error .replayRejected)
    else if cred.uid = SLURM_AUTH_NOBODY then (cache', .error .nobodyUid)
    else if cred.gid = SLURM_AUTH_NOBODY then (cache', .error .nobodyGid)
    else (cache', .ok (sbcastArgOf cred))

/-- How far `slurm_cred_create` got.  `backendCalled` means control reached
the delegation to the backend's `cred_create` (the sign path); the two
`rejected*` outcomes are the early NULL returns for `SLURM_AUTH_NOBODY`;
`identityFailed` is the NULL return when `fetch_identity` fails. -/
inductive CreateOutcome where
  | rejectedNobodyUid
  | rejectedNobodyGid
  | identityFailed
  | backendCalled
  deriving DecidableEq, Repr

/-- Result of `slurm_cred_create`: the outcome plus the value written to
`arg->core_array_size` (`none` when the rejection happened before that
assignment). -/
structure CreateResult where
  outcome : CreateOutcome
  core_array_size_set : Option Nat
  deriving DecidableEq, Repr

/-- The `core_array_size` loop of `slurm_cred_create` from cred.c:
`for (i = 0; i < job_nhosts; i++) { sock_recs += sock_core_rep_count[i];
if (sock_recs >= job_nhosts) break; } i++;`.  Reads past the end of the
array are modelled by `getD _ 0` (the theorems' hypotheses keep them in
bounds, matching the spec's coverage invariant). -/
def coreArraySizeGo (reps : List Nat) (nhosts i sock_recs : Nat) : Nat :=
  if i < nhosts then
    let s := sock_recs + reps.getD i 0
    if s ≥ nhosts then i + 1
    else coreArraySizeGo reps nhosts (i + 1) s
  else
    i + 1
termination_by nhosts - i

/-- The value `slurm_cred_create` stores into `arg->core_array_size`:
`0` when `sock_core_rep_count` is NULL (the loop and the trailing `i++`
are skipped and `i` keeps its initializer `0`), otherwise the loop
result. -/
def core_array_size_of (reps? : Option (List Nat)) (nhosts : Nat) : Nat :=
  match reps? with
  | none => 0
  | some reps => coreArraySizeGo reps nhosts 0 0

/-- `slurm_cred_create` from cred.c.  The globals `enable_nss_slurm` and
`enable_send_gids` and the success of `fetch_identity` are explicit
parameters; `idPresent` models `arg->id != NULL`.  Order of events, as
in the source: reject NOBODY uid, reject NOBODY gid, compute and store
`core_array_size`, optionally fetch the identity, delegate to the
backend. -/
def slurm_cred_create (arg : SlurmCredArg) (idPresent : Bool)
    (nss_slurm send_gids fetchIdentityOk : Bool) : CreateResult :=
  if arg.uid = SLURM_AUTH_NOBODY then
    { outcome := .rejectedNobodyUid, core_array_size_set := none }
  else if arg.gid = SLURM_AUTH_NOBODY then
    { outcome := .rejectedNobodyGid, core_array_size_set := none }
  else
    let cas := core_array_size_of arg.sock_core_rep_count arg.job_nhosts
    if !idPresent ∧ (nss_slurm ∨ send_gids) ∧ !fetchIdentityOk then
      { outcome := .identityFailed, core_array_size_set := some cas }
    else
      { outcome := .backendCalled, core_array_size_set := some cas }

/-- Modelled from the spec: `nodelist_find` / `hostlist_find`, the
host-range parser's index lookup (an external collaborator, §6).  The
host-range string is modelled as its expanded node-name list; the C
`-1` not-found result is `none`. -/
def nodelist_find (hl : List String) (name : String) : Option Nat :=
  hl.findIdx? (· = name)

/-- Modelled from the spec: `slurm_get_rep_count_inx`, the run-length
index helper (§9: `rep_count_index`): the smallest `i` with
`Σ_{k ≤ i} rep_count[k] > inx`, `none` when the array does not cover
`inx`. -/
def repCountGo (reps : List Nat) (i sum inx : Nat) : Option Nat :=
  match reps with
  | [] => none
  | r :: rest =>
    if sum + r > inx then some i
    else repCountGo rest (i + 1) (sum + r) inx

/-- Modelled from the spec: see `repCountGo`. -/
def slurm_get_rep_count_inx (reps : List Nat) (inx : Nat) : Option Nat :=
  repCountGo reps 0 0 inx

/-- `slurm_cred_get_mem` from cred.c.  `job_mem_init` and `step_mem` model
the caller-provided out-parameters' contents on entry (`step_mem = none`
models a NULL `step_mem_limit` pointer, triggering the early return).
Returns the values of `*job_mem_limit` and `*step_mem_limit` on exit.
Batch steps use `rep_idx = 0`; otherwise the index comes from run-length
decoding at the node's position in the job hostlist; a failed lookup
leaves the corresponding limit untouched; finally a zero step limit
inherits the job limit. -/
def slurm_cred_get_mem (cred : SlurmCredArg) (node_name : String)
    (job_mem_init : Nat) (step_mem : Option Nat) : Nat × Option Nat :=
  let rep_idx : Option Nat :=
    if cred.step_id = SLURM_BATCH_SCRIPT then
      some 0
    else
      match nodelist_find cred.job_hostlist node_name with
      | some node_id =>
        slurm_get_rep_count_inx cred.job_mem_alloc_rep_count node_id
      | none => none
  let job_mem :=
    match rep_idx with
    | some i => cred.job_mem_alloc.getD i 0
    | none => job_mem_init
  match step_mem with
  | none => (job_mem, none)
  | some s0 =>
    let s1 :=
      match cred.step_mem_alloc with
      | none => s0
      | some stepAlloc =>
        match nodelist_find cred.step_hostlist node_name with
        | some node_id =>
          match slurm_get_rep_count_inx cred.step_mem_alloc_rep_count node_id with
          | some i => stepAlloc.getD i 0
          | none => s0
        | none => s0
    (job_mem, some (if s1 = 0 then job_mem else s1))

/-- The bit-slice walk of `format_core_allocs` from cred.c, over the
zipped shape arrays `(sockets_per_node[i], cores_per_socket[i],
sock_core_rep_count[i])`.  `h` is the 1-origin host index; reaching the
end of the arrays (out-of-bounds reads in C) returns an empty slice. -/
def coreSliceWalk : List (Nat × Nat × Nat) → Nat → Nat → Nat × Nat
  | [], _, iFirst => (iFirst, iFirst)
  | (s, c, r) :: rest, h, iFirst =>
    if h > r then
      coreSliceWalk rest (h - r) (iFirst + s * c * r)
    else
      (iFirst + s * c * (h - 1), iFirst + s * c * (h - 1) + s * c)

/-- The per-node expansion of the run-length shape arrays: node `j`'s
core count (`sockets · cores` of its shape), in node order.  This is the
specification-level description of the run-length encoding against which
the walk is verified. -/
def expandShapes : List (Nat × Nat × Nat) → List Nat
  | [] => []
  | (s, c, r) :: rest => List.replicate r (s * c) ++ expandShapes rest

/-- The zipped shape arrays of a credential:
`(sockets_per_node[i], cores_per_socket[i], sock_core_rep_count[i])`. -/
def credShapes (cred : SlurmCredArg) (reps : List Nat) :
    List (Nat × Nat × Nat) :=
  cred.sockets_per_node.zip (cred.cores_per_socket.zip reps)

/-- Specification-level first bit of node `idx`'s slice of the global
core bitmap: the total core count of the nodes before it under the
run-length expansion. -/
def nodeFirstBit (shapes : List (Nat × Nat × Nat)) (idx : Nat) : Nat :=
  ((expandShapes shapes).take idx).sum

/-- Specification-level one-past-the-end bit of node `idx`'s slice. -/
def nodeLastBit (shapes : List (Nat × Nat × Nat)) (idx : Nat) : Nat :=
  nodeFirstBit shapes idx + (expandShapes shapes).getD idx 0

/-- The bitmap copy loop of `format_core_allocs`: local bit `j` is global
bit `i_first_bit + j`, for `j < i_last_bit - i_first_bit` (`bit_test`
past the end of the global bitmap is modelled as `false`). -/
def bitSlice (bm : List Bool) (f l : Nat) : List Bool :=
  (List.range (l - f)).map (fun j => bm.getD (f + j) false)

/-- Decimal digit character. -/
def digitChar (d : Nat) : Char :=
  match d with
  | 0 => '0' | 1 => '1' | 2 => '2' | 3 => '3' | 4 => '4'
  | 5 => '5' | 6 => '6' | 7 => '7' | 8 => '8' | _ => '9'

/-- Decimal digits of `n`, most significant first. -/
def natDigits (n : Nat) : List Char :=
  if _h : n < 10 then [digitChar n]
  else natDigits (n / 10) ++ [digitChar (n % 10)]
termination_by n
decreasing_by
  exact Nat.div_lt_self (by omega) (by omega)

/-- Decimal rendering of `n`. -/
def natStr (n : Nat) : String :=
  String.mk (natDigits n)

/-- Maximal runs of set bits, as inclusive `(lo, hi)` index ranges.
`st = some s` means a run that started at index `s` is open; `i` is the
index of the next bit. -/
def runsAux : List Bool → Nat → Option Nat → List (Nat × Nat)
  | [], _, none => []
  | [], i, some s => [(s, i - 1)]
  | b :: rest, i, none =>
    if b then runsAux rest (i + 1) (some i) else runsAux rest (i + 1) none
  | b :: rest, i, some s =>
    if b then runsAux rest (i + 1) (some s)
    else (s, i - 1) :: runsAux rest (i + 1) none

/-- The inclusive ranges of set bits of a bitmap. -/
def bitsToRanges (bs : List Bool) : List (Nat × Nat) :=
  runsAux bs 0 none

/-- One range in List Format: `lo` or `lo-hi`. -/
def renderRange (r : Nat × Nat) : String :=
  if r.1 = r.2 then natStr r.1 else natStr r.1 ++ "-" ++ natStr r.2

/-- Comma-separated List Format body. -/
def renderRanges : List (Nat × Nat) → String
  | [] => ""
  | [r] => renderRange r
  | r :: rest => renderRange r ++ "," ++ renderRanges rest

/-- Modelled from the spec: `bit_fmt` of the external bitmap library
renders comma-separated ranges, "with brackets only when the bitmap is
discontinuous" (§6). -/
def bit_fmt (bs : List Bool) : String :=
  let rs := bitsToRanges bs
  if rs.length ≤ 1 then renderRanges rs
  else "[" ++ renderRanges rs ++ "]"

/-- `_core_format` from cred.c (leading underscore dropped): if the
formatted string does not start with `[` return it unchanged; otherwise
drop the leading bracket and truncate at the closing one. -/
def core_format (bs : List Bool) : String :=
  match (bit_fmt bs).data with
  | '[' :: rest => String.mk (rest.takeWhile (fun c => c ≠ ']'))
  | _ => bit_fmt bs

/-- Total number of bits covered by a list of inclusive ranges — the
set-bit count a List Format string encodes. -/
def rangeBitCount (rs : List (Nat × Nat)) : Nat :=
  (rs.map (fun r => r.2 + 1 - r.1)).sum

/-- The number of set bits of `bm` restricted to the half-open slice
`[f, l)`. -/
def popcountSlice (bm : List Bool) (f l : Nat) : Nat :=
  (bitSlice bm f l).count true

/-- The outputs of `format_core_allocs`. -/
structure CoreAllocs where
  job_cores : String
  step_cores : String
  job_mem : Nat
  step_mem : Option Nat
  deriving DecidableEq, Repr

/-- `format_core_allocs` from cred.c (the `cpus` parameter only feeds a
debug log and is omitted).  `none` models the early returns that leave
the output strings unset: hostlist creation/lookup failure or a host
index outside `[0, job_nhosts)`.  On success: walk the shape arrays from
the 1-origin host index, copy the global bitmaps' slice into local
bitmaps, fetch the memory limits, and format the local bitmaps. -/
def format_core_allocs (cred : SlurmCredArg) (node_name : String)
    (job_mem_init : Nat) (step_mem_init : Option Nat) : Option CoreAllocs :=
  match cred.sock_core_rep_count with
  | none => none
  | some reps =>
    match nodelist_find cred.job_hostlist node_name with
    | none => none
    | some idx =>
      if idx ≥ cred.job_nhosts then none
      else
        let fl := coreSliceWalk (credShapes cred reps) (idx + 1) 0
        let jobLocal := bitSlice cred.job_core_bitmap fl.1 fl.2
        let stepLocal := bitSlice cred.step_core_bitmap fl.1 fl.2
        let mem := slurm_cred_get_mem cred node_name job_mem_init step_mem_init
        some { job_cores := core_format jobLocal
               step_cores := core_format stepLocal
               job_mem := mem.1
               step_mem := mem.2 }

/-- A concrete argument bundle (the spec's end-to-end scenario 1), used to
instantiate theorems at concrete inputs. -/
def argSample : SlurmCredArg :=
  { uid := 1000, gid := 1000, step_id := 0
    job_hostlist := ["n1", "n2"], step_hostlist := ["n2"]
    job_nhosts := 2
    sockets_per_node := [1, 1], cores_per_socket := [4, 4]
    sock_core_rep_count := some [2], core_array_size := 0
    job_core_bitmap := [false, false, false, false, true, true, true, true]
    step_core_bitmap := [false, false, false, false, true, false, true, false]
    job_mem_alloc := [1024], job_mem_alloc_rep_count := [2]
    step_mem_alloc := none, step_mem_alloc_rep_count := [] }

/-- A concrete broadcast credential, used to instantiate theorems at
concrete inputs. -/
def sbCredSample : SbcastCredT :=
  { ctime := 0, expiration := 60, jobid := 42, het_job_id := 0, step_id := 0
    uid := 1000, gid := 1000, user_name := "alice", gids := [1000]
    nodes := "n1", signature := [65, 66, 67], verified := true }

/- ------------------------------------------------------------------ -/
/- Theorems                                                           -/
/- ------------------------------------------------------------------ -/

/-- C1: `slurm_cred_verify c` succeeds and returns the argument bundle iff
`c.verified` holds and `now ≤ ctime + cred_expire`; an unverified
credential fails with `INVALID_JOB_CREDENTIAL`, and a verified but stale
one fails with `CREDENTIAL_EXPIRED` (the NULL return is the `.error`
case). -/
theorem slurm_cred_verify_spec (cred : SlurmCredT) (now cred_expire : Nat) :
    (slurm_cred_verify cred now cred_expire = .ok cred.arg ↔
      cred.verified = true ∧ now ≤ cred.ctime + cred_expire) ∧
    (∀ a, slurm_cred_verify cred now cred_expire = .ok a → a = cred.arg) ∧
    (cred.verified = false →
      slurm_cred_verify cred now cred_expire = .error .invalidJobCredential) ∧
    (cred.verified = true → cred.ctime + cred_expire < now →
      slurm_cred_verify cred now cred_expire = .error .credentialExpired) := by
  unfold slurm_cred_verify
  cases hv : cred.verified <;> simp [hv]
  split_ifs with h <;> simp_all

/-- Witness for C1: a fresh verified credential verifies to its bundle. -/
theorem slurm_cred_verify_spec_witness :
    slurm_cred_verify { verified := true, ctime := 0, arg := argSample } 100 120 =
      .ok argSample :=
  (slurm_cred_verify_spec { verified := true, ctime := 0, arg := argSample } 100 120).1.mpr
    ⟨rfl, by norm_num⟩

/-- C4: for every broadcast credential, block number, flag set and cache
state, `extract_sbcast_cred` fails (NULL, the cache untouched) whenever
`now > expiration`; at `now = expiration` the expiration check still
passes (the result is never the expiration failure). -/
theorem extract_sbcast_cred_expired (cred : SbcastCredT) (block_no flags : Nat)
    (cache : List SbcastCache) (now : Nat) :
    (cred.expiration < now →
      extract_sbcast_cred cred block_no flags cache now = (cache, .error .expired)) ∧
    (now = cred.expiration →
      (extract_sbcast_cred cred block_no flags cache now).2 ≠ .error .expired) := by
  constructor
  · intro h
    unfold extract_sbcast_cred
    simp [h]
  · intro h
    unfold extract_sbcast_cred
    have hne : ¬ (now > cred.expiration) := by omega
    simp only [hne, if_false]
    split_ifs <;> simp

/-- Witness for C4: one second past expiration every extract fails. -/
theorem extract_sbcast_cred_expired_witness :
    extract_sbcast_cred sbCredSample 1 0 [] 61 = ([], .error .expired) :=
  (extract_sbcast_cred_expired sbCredSample 1 0 [] 61).1 (by norm_num [sbCredSample])

/-- C8: `slurm_cred_create` with a `SLURM_AUTH_NOBODY` uid or gid returns
NULL through the rejection branch and never reaches the backend's
`cred_create` (the sign path); with non-NOBODY identities the rejection
branch is not taken. -/
theorem slurm_cred_create_nobody (arg : SlurmCredArg)
    (idPresent nss gids fetch : Bool) :
    ((arg.uid = SLURM_AUTH_NOBODY ∨ arg.gid = SLURM_AUTH_NOBODY) →
      ((slurm_cred_create arg idPresent nss gids fetch).outcome = .rejectedNobodyUid ∨
       (slurm_cred_create arg idPresent nss gids fetch).outcome = .rejectedNobodyGid) ∧
      (slurm_cred_create arg idPresent nss gids fetch).outcome ≠ .backendCalled) ∧
    (arg.uid ≠ SLURM_AUTH_NOBODY → arg.gid ≠ SLURM_AUTH_NOBODY →
      (slurm_cred_create arg idPresent nss gids fetch).outcome ≠ .rejectedNobodyUid ∧
      (slurm_cred_create arg idPresent nss gids fetch).outcome ≠ .rejectedNobodyGid) := by
  unfold slurm_cred_create
  split_ifs <;> simp_all

/-- Witness for C8: creating for user nobody never reaches the backend. -/
theorem slurm_cred_create_nobody_witness :
    (slurm_cred_create { argSample with uid := SLURM_AUTH_NOBODY }
        true false true true).outcome ≠ .backendCalled :=
  ((slurm_cred_create_nobody { argSample with uid := SLURM_AUTH_NOBODY }
      true false true true).1 (Or.inl rfl)).2

/-- C10: at init, `enable_nss_slurm` in the launch parameters short-circuits
the `else if`, so `enable_send_gids` keeps its default `true` even when
`disable_send_gids` is also present; `disable_send_gids` turns
`enable_send_gids` off exactly when `enable_nss_slurm` is absent. -/
theorem cred_g_init_flags_spec (lp : String) :
    (strCaseContains lp "enable_nss_slurm" = true →
      (cred_g_init_flags lp).enable_send_gids = true) ∧
    ((cred_g_init_flags lp).enable_send_gids = false ↔
      strCaseContains lp "enable_nss_slurm" = false ∧
      strCaseContains lp "disable_send_gids" = true) := by
  unfold cred_g_init_flags
  split_ifs with h1 h2 <;> simp_all

/-- Witness for C10: with both options present, gid sending stays on. -/
theorem cred_g_init_flags_spec_witness :
    (cred_g_init_flags "enable_nss_slurm,disable_send_gids").enable_send_gids = true :=
  (cred_g_init_flags_spec "enable_nss_slurm,disable_send_gids").1 (by decide)

/-- Taking one more element adds `getD n 0` to the sum (also past the end,
where it adds the default `0`). -/
theorem sum_take_getD (l : List Nat) (n : Nat) :
    (l.take (n + 1)).sum = (l.take n).sum + l.getD n 0 := by
  by_cases h : n < l.length
  · rw [List.sum_take_succ l n h, List.getD_eq_getElem l 0 h]
  · push_neg at h
    rw [List.take_of_length_le (by omega), List.take_of_length_le h,
      List.getD_eq_default l 0 h]
    simp

/-- A positive scan result exhibits a matching record in the cache. -/
theorem sbcastScan_found (e v now : Nat) (l : List SbcastCache) :
    (sbcastScan e v now l).1 = true →
    ∃ r ∈ l, r.expire = e ∧ r.value = v := by
  induction l with
  | nil => simp [sbcastScan]
  | cons r rest ih =>
    simp only [sbcastScan]
    split_ifs with h1 h2
    · exact fun _ => ⟨r, List.mem_cons_self r rest, h1⟩
    · intro h
      obtain ⟨r', hr', hm⟩ := ih h
      exact ⟨r', List.mem_cons_of_mem r hr', hm⟩
    · rcases hsc : sbcastScan e v now rest with ⟨found, rest'⟩
      simp only [hsc]
      intro h
      obtain ⟨r', hr', hm⟩ := ih (by rw [hsc]; exact h)
      exact ⟨r', List.mem_cons_of_mem r hr', hm⟩

/-- With no matching record anywhere in the cache, the scan fails and
purges exactly the expired records. -/
theorem sbcastScan_no_match (e v now : Nat) (l : List SbcastCache)
    (h : ∀ r ∈ l, ¬(r.expire = e ∧ r.value = v)) :
    sbcastScan e v now l =
      (false, l.filter (fun r => decide (now < r.expire))) := by
  induction l with
  | nil => simp [sbcastScan]
  | cons r rest ih =>
    have hr := h r (List.mem_cons_self r rest)
    have hrest := fun x hx => h x (List.mem_cons_of_mem r hx)
    simp only [sbcastScan, hr, if_false]
    split_ifs with h2
    · rw [ih hrest]
      have : decide (now < r.expire) = false := by
        simp only [decide_eq_false_iff_not]
        omega
      simp [List.filter_cons, this]
    · rw [ih hrest]
      have : decide (now < r.expire) = true := by
        simp only [decide_eq_true_eq]
        omega
      simp [List.filter_cons, this]

/-- C2: for an unexpired broadcast credential with non-NOBODY identity,
an extract of block 1 without the shared-object flag succeeds iff the
credential is verified, in which case `(expiration, hash(signature))` is
appended to the anti-replay cache and the argument bundle returned; an
unverified credential fails with the cache untouched. -/
theorem extract_sbcast_cred_block1 (cred : SbcastCredT) (flags : Nat)
    (cache : List SbcastCache) (now : Nat)
    (hexp : now ≤ cred.expiration)
    (huid : cred.uid ≠ SLURM_AUTH_NOBODY) (hgid : cred.gid ≠ SLURM_AUTH_NOBODY)
    (hso : flags &&& FILE_BCAST_SO = 0) :
    ((extract_sbcast_cred cred 1 flags cache now).2 = .ok (sbcastArgOf cred) ↔
      cred.verified = true) ∧
    (cred.verified = true →
      extract_sbcast_cred cred 1 flags cache now =
        (cache ++ [{ expire := cred.expiration
                     value := sbcast_cache_hash cred.signature }],
         .ok (sbcastArgOf cred))) ∧
    (cred.verified = false →
      extract_sbcast_cred cred 1 flags cache now = (cache, .error .notVerified)) := by
  unfold extract_sbcast_cred
  have h1 : ¬(now > cred.expiration) := by omega
  cases hv : cred.verified <;>
    simp [h1, hv, hso, sbcast_cache_add, huid, hgid]

/-- Witness for C2: first extract of block 1 of a verified broadcast
credential seeds the empty cache and succeeds. -/
theorem extract_sbcast_cred_block1_witness :
    extract_sbcast_cred sbCredSample 1 0 [] 10 =
      ([] ++ [{ expire := sbCredSample.expiration
                value := sbcast_cache_hash sbCredSample.signature }],
       .ok (sbcastArgOf sbCredSample)) :=
  (extract_sbcast_cred_block1 sbCredSample 0 [] 10 (by decide) (by decide)
    (by decide) (by decide)).2.1 rfl

/-- C3: for an unexpired broadcast credential, an extract that is not
block 1 of a non-shared-object transfer succeeds only if the cache holds
a record matching `(expiration, hash(signature))`; with no such record
it fails (NULL) with `ReplayRejected`, and the records with
`expire ≤ now` visited by the scan are purged (with no match, the whole
cache is scanned, leaving exactly the unexpired records). -/
theorem extract_sbcast_cred_replay (cred : SbcastCredT) (block_no flags : Nat)
    (cache : List SbcastCache) (now : Nat)
    (hexp : now ≤ cred.expiration)
    (hnb : ¬(block_no = 1 ∧ flags &&& FILE_BCAST_SO = 0)) :
    (∀ a, (extract_sbcast_cred cred block_no flags cache now).2 = .ok a →
      ∃ r ∈ cache, r.expire = cred.expiration ∧
        r.value = sbcast_cache_hash cred.signature) ∧
    ((¬∃ r ∈ cache, r.expire = cred.expiration ∧
        r.value = sbcast_cache_hash cred.signature) →
      extract_sbcast_cred cred block_no flags cache now =
        (cache.filter (fun r => decide (now < r.expire)),
         .error .replayRejected)) := by
  unfold extract_sbcast_cred
  have h1 : ¬(now > cred.expiration) := by omega
  simp only [h1, if_false, hnb, if_neg, if_false]
  constructor
  · intro a ha
    rcases hsc : sbcastScan cred.expiration (sbcast_cache_hash cred.signature)
        now cache with ⟨found, cache'⟩
    rw [hsc] at ha
    cases found with
    | false => simp at ha
    | true =>
      apply sbcastScan_found cred.expiration (sbcast_cache_hash cred.signature) now cache
      rw [hsc]
  · intro hno
    push_neg at hno
    have hsc := sbcastScan_no_match cred.expiration
      (sbcast_cache_hash cred.signature) now cache
      (by intro r hr hc; exact absurd hc.2 (hno r hr hc.1))
    rw [hsc]
    simp

/-- Witness for C3: a first extract using block 5 against an empty cache
is rejected as a replay. -/
theorem extract_sbcast_cred_replay_witness :
    extract_sbcast_cred sbCredSample 5 0 [] 10 = ([], .error .replayRejected) :=
  (extract_sbcast_cred_replay sbCredSample 5 0 [] 10 (by decide) (by decide)).2
    (by simp)

/-- The `core_array_size` loop, started at position `i` with the running
sum of the first `i` entries, breaks at the minimal covering index `k`
and yields `k + 1`. -/
theorem coreArraySizeGo_eq (reps : List Nat) (nhosts k : Nat)
    (hk : k < nhosts)
    (hge : nhosts ≤ (reps.take (k + 1)).sum)
    (hmin : ∀ j, j < k → (reps.take (j + 1)).sum < nhosts) :
    ∀ i, i ≤ k →
      coreArraySizeGo reps nhosts i ((reps.take i).sum) = k + 1 := by
  intro i hi
  obtain ⟨n, hn⟩ : ∃ n, k - i = n := ⟨k - i, rfl⟩
  induction n generalizing i with
  | zero =>
    have hik : i = k := by omega
    subst hik
    rw [coreArraySizeGo]
    simp only [hk, if_true]
    rw [← sum_take_getD reps i]
    simp [hge]
  | succ m ih =>
    have hik : i < k := by omega
    rw [coreArraySizeGo]
    have hin : i < nhosts := by omega
    simp only [hin, if_true]
    rw [← sum_take_getD reps i]
    have hlt : (reps.take (i + 1)).sum < nhosts := hmin i hik
    simp only [Nat.not_le.mpr hlt, ge_iff_le, if_neg (Nat.not_le.mpr hlt)]
    exact ih (i + 1) (by omega) (by omega)

/-- C6: `slurm_cred_create` (past the NOBODY rejections) sets
`core_array_size` to `k + 1` where `k` is the smallest index whose
running `sock_core_rep_count` sum reaches `job_nhosts`, and to `0` when
`sock_core_rep_count` is NULL. -/
theorem slurm_cred_create_core_array_size (arg : SlurmCredArg)
    (idPresent nss gids fetch : Bool)
    (huid : arg.uid ≠ SLURM_AUTH_NOBODY) (hgid : arg.gid ≠ SLURM_AUTH_NOBODY) :
    (arg.sock_core_rep_count = none →
      (slurm_cred_create arg idPresent nss gids fetch).core_array_size_set =
        some 0) ∧
    (∀ reps k, arg.sock_core_rep_count = some reps →
      k < arg.job_nhosts →
      arg.job_nhosts ≤ (reps.take (k + 1)).sum →
      (∀ j, j < k → (reps.take (j + 1)).sum < arg.job_nhosts) →
      (slurm_cred_create arg idPresent nss gids fetch).core_array_size_set =
        some (k + 1)) := by
  unfold slurm_cred_create
  simp only [huid, hgid, if_false]
  constructor
  · intro h
    split_ifs <;> simp [core_array_size_of, h]
  · intro reps k hreps hk hge hmin
    have hloop := coreArraySizeGo_eq reps arg.job_nhosts k hk hge hmin 0 (by omega)
    simp only [List.take_zero, List.sum_nil] at hloop
    split_ifs <;> simp [core_array_size_of, hreps, hloop]

/-- Witness for C6: `sock_core_rep_count = [2]` covers two hosts at index
0, giving `core_array_size = 1`. -/
theorem slurm_cred_create_core_array_size_witness :
    (slurm_cred_create argSample true false true true).core_array_size_set =
      some (0 + 1) :=
  (slurm_cred_create_core_array_size argSample true false true true
      (by decide) (by decide)).2 [2] 0 rfl (by decide) (by decide)
    (by intro j hj; omega)

/-- One unfolding of `bePairSum` at position `i` of the byte list: the
pair read there is `getD i 0 · 256 + getD (i+1) 0` (the second read
being the terminating NUL when `i + 1 = length`). -/
theorem bePairSum_drop (sig : List Nat) (i : Nat) (h : i < sig.length) :
    bePairSum (sig.drop i) =
      sig.getD i 0 * 256 + sig.getD (i + 1) 0 + bePairSum (sig.drop (i + 2)) := by
  rw [List.drop_eq_getElem_cons h]
  by_cases h2 : i + 1 < sig.length
  · rw [List.drop_eq_getElem_cons h2]
    rw [bePairSum, List.getD_eq_getElem sig 0 h, List.getD_eq_getElem sig 0 h2]
  · push_neg at h2
    rw [List.drop_eq_nil_of_le h2, List.drop_eq_nil_of_le (by omega)]
    rw [bePairSum, List.getD_eq_getElem sig 0 h, List.getD_eq_default sig 0 h2]
    simp [bePairSum]

/-- For signatures whose bytes stay below 0x80 (no sign extension), the
accumulator form of the hash loop computes the pair sum of the remaining
bytes, mod 2³². -/
theorem sbcastCacheHashGo_eq (sig : List Nat) (hbytes : ∀ b ∈ sig, b < 128) :
    ∀ fuel i hash, sig.length ≤ i + fuel → hash < 2 ^ 32 →
      sbcastCacheHashGo sig sig.length i hash =
        (hash + bePairSum (sig.drop i)) % 2 ^ 32 := by
  intro fuel
  induction fuel with
  | zero =>
    intro i hash hf hh
    have hge : ¬(i < sig.length) := by omega
    rw [sbcastCacheHashGo]
    simp only [hge, if_false]
    rw [List.drop_eq_nil_of_le (by omega)]
    simp only [bePairSum, Nat.add_zero]
    omega
  | succ m ih =>
    intro i hash hf hh
    by_cases hi : i < sig.length
    · rw [sbcastCacheHashGo]
      simp only [hi, if_true]
      have hb1 : sig.getD i 0 < 128 := by
        rw [List.getD_eq_getElem sig 0 hi]
        exact hbytes _ (List.getElem_mem hi)
      have hb2 : sig.getD (i + 1) 0 < 128 := by
        by_cases h2 : i + 1 < sig.length
        · rw [List.getD_eq_getElem sig 0 h2]
          exact hbytes _ (List.getElem_mem h2)
        · rw [List.getD_eq_default sig 0 (by omega)]
          omega
      have hcast : (((hash : Int) + signedByte (sig.getD i 0) * 256 +
          signedByte (sig.getD (i + 1) 0)) % 2 ^ 32).toNat =
          (hash + sig.getD i 0 * 256 + sig.getD (i + 1) 0) % 2 ^ 32 := by
        unfold signedByte
        rw [if_pos hb1, if_pos hb2]
        omega
      rw [hcast]
      rw [ih (i + 2) _ (by omega) (Nat.mod_lt _ (by norm_num))]
      rw [bePairSum_drop sig i hi]
      rw [Nat.mod_add_mod]
      ring_nf
    · rw [sbcastCacheHashGo]
      simp only [hi, if_false]
      rw [List.drop_eq_nil_of_le (by omega)]
      simp only [bePairSum, Nat.add_zero]
      omega

/-- Counterexample to C9 as stated: the one-byte signature `0x80` is read
through signed `char`, so the loop adds `(-128) << 8` and the `uint32_t`
hash is 0xFFFF8000, not the big-endian pair value 0x8000 claimed for
every byte string. -/
theorem sbcast_cache_hash_counterexample :
    sbcast_cache_hash [128] ≠ bePairSum [128] % 2 ^ 32 := by
  have h1 : sbcast_cache_hash [128] = 4294934528 := by
    rw [sbcast_cache_hash, sbcastCacheHashGo]
    norm_num [signedByte, List.getD]
    rw [sbcastCacheHashGo]
    norm_num
    decide
  rw [h1]
  norm_num [bePairSum]

/-- C9 (amended): for signatures whose bytes are all below 0x80 — in
particular the printable signatures the backend emits — the cache-key
hash equals the sum over consecutive non-overlapping big-endian byte
pairs, taken mod 2³² (odd-length strings pair the final byte with the
terminating NUL).  Bytes at or above 0x80 sign-extend through `char` and
break the equality, as the counterexample shows. -/
theorem sbcast_cache_hash_spec (sig : List Nat)
    (hbytes : ∀ b ∈ sig, b < 128) :
    sbcast_cache_hash sig = bePairSum sig % 2 ^ 32 := by
  unfold sbcast_cache_hash
  rw [sbcastCacheHashGo_eq sig hbytes sig.length 0 0 (by omega) (by norm_num)]
  simp

/-- Witness for C9 on a concrete odd-length 7-bit signature. -/
theorem sbcast_cache_hash_spec_witness :
    sbcast_cache_hash [65, 66, 67] = bePairSum [65, 66, 67] % 2 ^ 32 :=
  sbcast_cache_hash_spec [65, 66, 67] (by decide)

/-- C7: `slurm_cred_get_mem` gives a batch step (`step_id =
SLURM_BATCH_SCRIPT`) the job limit `job_mem_alloc[0]` whatever the node
name; and the step limit inherits the job limit whenever the step
allocation array is absent (with the out-parameter holding the unset
value 0) or the step value resolved for the node is 0. -/
theorem slurm_cred_get_mem_spec (cred : SlurmCredArg) (node : String)
    (jmi : Nat) :
    (cred.step_id = SLURM_BATCH_SCRIPT → cred.job_mem_alloc ≠ [] →
      ∀ smi, (slurm_cred_get_mem cred node jmi smi).1 =
        cred.job_mem_alloc.getD 0 0) ∧
    (cred.step_mem_alloc = none →
      (slurm_cred_get_mem cred node jmi (some 0)).2 =
        some (slurm_cred_get_mem cred node jmi (some 0)).1) ∧
    (∀ sa nid i s0, cred.step_mem_alloc = some sa →
      nodelist_find cred.step_hostlist node = some nid →
      slurm_get_rep_count_inx cred.step_mem_alloc_rep_count nid = some i →
      sa.getD i 0 = 0 →
      (slurm_cred_get_mem cred node jmi (some s0)).2 =
        some (slurm_cred_get_mem cred node jmi (some s0)).1) := by
  refine ⟨fun hb _ smi => ?_, fun hnone => ?_, fun sa nid i s0 hsa hnid hrep h0 => ?_⟩
  · unfold slurm_cred_get_mem
    simp only [hb, if_pos rfl]
    cases smi <;> simp
  · unfold slurm_cred_get_mem
    simp only [hnone]
    split_ifs <;> simp
  · unfold slurm_cred_get_mem
    simp only [hsa, hnid, hrep, h0]
    split_ifs <;> simp

/-- Witness for C7: a batch-step credential reports `job_mem_alloc[0]` on
a node name outside any hostlist. -/
theorem slurm_cred_get_mem_spec_witness :
    (slurm_cred_get_mem { argSample with step_id := SLURM_BATCH_SCRIPT }
        "elsewhere" 0 (some 0)).1 =
      ({ argSample with step_id := SLURM_BATCH_SCRIPT } :
        SlurmCredArg).job_mem_alloc.getD 0 0 :=
  (slurm_cred_get_mem_spec { argSample with step_id := SLURM_BATCH_SCRIPT }
      "elsewhere" 0).1 rfl (by decide) (some 0)

/-- The walk of `format_core_allocs` computes exactly the run-length
expansion's slice for the node: started at 1-origin host index
`idx + 1` with accumulator `acc`, it stops at
`(acc + nodeFirstBit, acc + nodeLastBit)`. -/
theorem coreSliceWalk_eq (shapes : List (Nat × Nat × Nat)) :
    ∀ idx acc, idx < (expandShapes shapes).length →
      coreSliceWalk shapes (idx + 1) acc =
        (acc + nodeFirstBit shapes idx, acc + nodeLastBit shapes idx) := by
  induction shapes with
  | nil =>
    intro idx acc hidx
    simp [expandShapes] at hidx
  | cons t rest ih =>
    rcases t with ⟨s, c, r⟩
    intro idx acc hidx
    simp only [expandShapes, List.length_append, List.length_replicate] at hidx
    simp only [coreSliceWalk, nodeFirstBit, nodeLastBit, expandShapes]
    by_cases hr : idx + 1 > r
    · simp only [hr, if_true]
      have harith : idx + 1 - r = (idx - r) + 1 := by omega
      rw [harith, ih (idx - r) (acc + s * c * r) (by omega)]
      have htake : (List.replicate r (s * c) ++ expandShapes rest).take idx =
          List.replicate r (s * c) ++ (expandShapes rest).take (idx - r) := by
        rw [List.take_append_eq_append_take, List.take_of_length_le
          (by simp [List.length_replicate]; omega)]
        simp [List.length_replicate]
      have hgetD : (List.replicate r (s * c) ++ expandShapes rest).getD idx 0 =
          (expandShapes rest).getD (idx - r) 0 := by
        rw [List.getD_append_right _ _ _ _ (by simp [List.length_replicate]; omega)]
        simp [List.length_replicate]
      rw [htake, hgetD, List.sum_append, List.sum_replicate, smul_eq_mul]
      simp only [Prod.mk.injEq, nodeFirstBit, nodeLastBit]
      constructor <;> ring
    · simp only [hr, if_false]
      have hir : idx < r := by omega
      have htake : (List.replicate r (s * c) ++ expandShapes rest).take idx =
          List.replicate idx (s * c) := by
        rw [List.take_append_eq_append_take, List.take_replicate]
        have : idx - (List.replicate r (s * c)).length = 0 := by
          simp [List.length_replicate]; omega
        rw [this]
        simp [min_eq_left (by omega : idx ≤ r)]
      have hgetD : (List.replicate r (s * c) ++ expandShapes rest).getD idx 0 =
          s * c := by
        rw [List.getD_append _ _ _ _ (by simp [List.length_replicate]; omega)]
        rw [List.getD_eq_getElem _ _ (by simp [List.length_replicate]; omega)]
        simp
      rw [htake, hgetD, List.sum_replicate, smul_eq_mul]
      simp only [Nat.add_sub_cancel, Prod.mk.injEq]
      constructor <;> ring

/-- Invariant form of the run-extraction count: the ranges produced cover
the set bits seen so far plus the open run. -/
theorem runsAux_count (bs : List Bool) :
    ∀ i st, (∀ s, st = some s → s < i) →
      rangeBitCount (runsAux bs i st) =
        bs.count true + (match st with | none => 0 | some s => i - s) := by
  induction bs with
  | nil =>
    intro i st hst
    cases st with
    | none => simp [runsAux, rangeBitCount]
    | some s =>
      have := hst s rfl
      simp only [runsAux, rangeBitCount, List.map_cons, List.map_nil,
        List.sum_cons, List.sum_nil, List.count_nil]
      omega
  | cons b rest ih =>
    intro i st hst
    cases st with
    | none =>
      cases b
      · simp only [runsAux, if_false, Bool.false_eq_true]
        rw [ih (i + 1) none (by simp)]
        simp [List.count_cons]
      · simp only [runsAux, if_true]
        rw [ih (i + 1) (some i) (by intro s hs; injection hs; omega)]
        simp [List.count_cons]
    | some s =>
      have hs := hst s rfl
      cases b
      · simp only [runsAux, if_false, Bool.false_eq_true]
        rw [rangeBitCount, List.map_cons, List.sum_cons, ← rangeBitCount]
        rw [ih (i + 1) none (by simp)]
        simp [List.count_cons]
        omega
      · simp only [runsAux, if_true]
        rw [ih (i + 1) (some s) (by intro x hx; injection hx; omega)]
        simp [List.count_cons]
        omega

/-- The total bit count of a bitmap's range decomposition is its number
of set bits. -/
theorem rangeBitCount_bitsToRanges (bs : List Bool) :
    rangeBitCount (bitsToRanges bs) = bs.count true := by
  have h := runsAux_count bs 0 none (by simp)
  simpa [bitsToRanges] using h

/-- Digit characters are not brackets. -/
theorem digitChar_ne_brackets (d : Nat) :
    digitChar d ≠ '[' ∧ digitChar d ≠ ']' := by
  unfold digitChar
  split <;> exact ⟨by decide, by decide⟩

/-- Every character of a decimal rendering is a digit character. -/
theorem natDigits_chars (n : Nat) :
    ∀ c ∈ natDigits n, ∃ d, c = digitChar d := by
  induction n using Nat.strong_induction_on with
  | _ n ih =>
    rw [natDigits]
    split_ifs with h
    · intro c hc
      simp only [List.mem_singleton] at hc
      exact ⟨n, hc⟩
    · intro c hc
      rw [List.mem_append] at hc
      rcases hc with hc | hc
      · exact ih (n / 10) (Nat.div_lt_self (by omega) (by omega)) c hc
      · simp only [List.mem_singleton] at hc
        exact ⟨n % 10, hc⟩

/-- A decimal rendering starts with a digit character. -/
theorem natDigits_head (n : Nat) :
    ∃ d t, natDigits n = digitChar d :: t := by
  induction n using Nat.strong_induction_on with
  | _ n ih =>
    rw [natDigits]
    split_ifs with h
    · exact ⟨n, [], rfl⟩
    · obtain ⟨d, t, ht⟩ := ih (n / 10) (Nat.div_lt_self (by omega) (by omega))
      exact ⟨d, t ++ [digitChar (n % 10)], by rw [ht, List.cons_append]⟩

/-- The characters of one rendered range are digits and dashes. -/
theorem renderRange_chars (r : Nat × Nat) :
    ∀ c ∈ (renderRange r).data, c = '-' ∨ ∃ d, c = digitChar d := by
  unfold renderRange natStr
  split_ifs with h
  · exact fun c hc => Or.inr (natDigits_chars r.1 c hc)
  · intro c hc
    simp only [String.data_append] at hc
    rw [List.mem_append, List.mem_append] at hc
    rcases hc with (hc | hc) | hc
    · exact Or.inr (natDigits_chars r.1 c hc)
    · left
      simpa using hc
    · exact Or.inr (natDigits_chars r.2 c hc)

/-- The characters of a rendered range list are digits, dashes and
commas — in particular no brackets. -/
theorem renderRanges_chars (rs : List (Nat × Nat)) :
    ∀ c ∈ (renderRanges rs).data,
      c = ',' ∨ c = '-' ∨ ∃ d, c = digitChar d := by
  induction rs with
  | nil => intro c hc; simp [renderRanges] at hc
  | cons r rest ih =>
    cases rest with
    | nil =>
      intro c hc
      have := renderRange_chars r c hc
      tauto
    | cons r' rest' =>
      intro c hc
      simp only [renderRanges, String.data_append] at hc
      rw [List.mem_append, List.mem_append] at hc
      rcases hc with (hc | hc) | hc
      · have := renderRange_chars r c hc
        tauto
      · left
        simpa using hc
      · exact ih c hc

/-- A rendered range list never contains a closing bracket. -/
theorem renderRanges_no_rbracket (rs : List (Nat × Nat)) :
    ∀ c ∈ (renderRanges rs).data, c ≠ ']' := by
  intro c hc
  rcases renderRanges_chars rs c hc with h | h | ⟨d, h⟩
  · subst h; decide
  · subst h; decide
  · subst h; exact (digitChar_ne_brackets d).2

/-- A nonempty rendered range list starts with a digit. -/
theorem renderRanges_head (r : Nat × Nat) (rs : List (Nat × Nat)) :
    ∃ d t, (renderRanges (r :: rs)).data = digitChar d :: t := by
  obtain ⟨d, t, ht⟩ := natDigits_head r.1
  cases rs with
  | nil =>
    unfold renderRanges renderRange natStr
    split_ifs with h
    · exact ⟨d, t, by rw [ht]⟩
    · exact ⟨d, t ++ ("-".data ++ (natDigits r.2)),
        by simp only [String.data_append]; rw [ht]; simp⟩
  | cons r' rest' =>
    unfold renderRanges renderRange natStr
    split_ifs with h
    · exact ⟨d, t ++ (",".data ++ (renderRanges (r' :: rest')).data),
        by simp only [String.data_append]; rw [ht]; simp⟩
    · exact ⟨d, (t ++ ("-".data ++ (natDigits r.2))) ++
          (",".data ++ (renderRanges (r' :: rest')).data),
        by simp only [String.data_append]; rw [ht]; simp⟩

/-- Rebuilding a string from its characters is the identity. -/
theorem string_mk_data (s : String) : String.mk s.data = s := by
  cases s
  rfl

/-- `_core_format` composed with the modelled `bit_fmt` yields exactly the
comma-separated range body: the brackets added for a discontinuous
bitmap are stripped again. -/
theorem core_format_eq (bs : List Bool) :
    core_format bs = renderRanges (bitsToRanges bs) := by
  unfold core_format bit_fmt
  by_cases hlen : (bitsToRanges bs).length ≤ 1
  · simp only [hlen, if_true]
    rcases hd : (bitsToRanges bs) with _ | ⟨r, rest⟩
    · simp [renderRanges]
    · obtain ⟨d, t, ht⟩ := renderRanges_head r rest
      rw [ht]
      have hne : digitChar d ≠ '[' := (digitChar_ne_brackets d).1
      split
      · rename_i heq
        rw [List.cons.injEq] at heq
        exact absurd heq.1 hne
      · rfl
  · simp only [hlen, if_false]
    have hdata : (("[" ++ renderRanges (bitsToRanges bs) ++ "]") : String).data =
        '[' :: ((renderRanges (bitsToRanges bs)).data ++ [']']) := by
      simp [String.data_append]
    rw [hdata]
    have hall : ∀ c ∈ (renderRanges (bitsToRanges bs)).data,
        (decide (c ≠ ']')) = true := by
      intro c hc
      simp only [decide_eq_true_eq]
      exact renderRanges_no_rbracket (bitsToRanges bs) c hc
    show String.mk (((renderRanges (bitsToRanges bs)).data ++
        [']']).takeWhile (fun c => decide (c ≠ ']'))) = _
    rw [List.takeWhile_append_of_pos hall]
    simp only [List.takeWhile]
    norm_num

/-- C5: for a node found in the job hostlist at an index in
`[0, job_nhosts)`, `format_core_allocs` walks the run-length shape
arrays to the slice `[i_first_bit, i_last_bit)` of the global core
bitmap belonging to that node (`nodeFirstBit`/`nodeLastBit` of the
run-length expansion), and returns core strings rendering exactly the
bits of `job_core_bitmap` (resp. `step_core_bitmap`) in that slice,
whose encoded set-bit count equals the popcount of the bitmap restricted
to the slice. -/
theorem format_core_allocs_spec (cred : SlurmCredArg) (node : String)
    (jmi : Nat) (smi : Option Nat) (reps : List Nat) (idx : Nat)
    (hreps : cred.sock_core_rep_count = some reps)
    (hfind : nodelist_find cred.job_hostlist node = some idx)
    (hidx : idx < cred.job_nhosts)
    (hcover : idx < (expandShapes (credShapes cred reps)).length) :
    coreSliceWalk (credShapes cred reps) (idx + 1) 0 =
      (nodeFirstBit (credShapes cred reps) idx,
       nodeLastBit (credShapes cred reps) idx) ∧
    format_core_allocs cred node jmi smi =
      some { job_cores := renderRanges (bitsToRanges
               (bitSlice cred.job_core_bitmap
                 (nodeFirstBit (credShapes cred reps) idx)
                 (nodeLastBit (credShapes cred reps) idx)))
             step_cores := renderRanges (bitsToRanges
               (bitSlice cred.step_core_bitmap
                 (nodeFirstBit (credShapes cred reps) idx)
                 (nodeLastBit (credShapes cred reps) idx)))
             job_mem := (slurm_cred_get_mem cred node jmi smi).1
             step_mem := (slurm_cred_get_mem cred node jmi smi).2 } ∧
    rangeBitCount (bitsToRanges (bitSlice cred.job_core_bitmap
        (nodeFirstBit (credShapes cred reps) idx)
        (nodeLastBit (credShapes cred reps) idx))) =
      popcountSlice cred.job_core_bitmap
        (nodeFirstBit (credShapes cred reps) idx)
        (nodeLastBit (credShapes cred reps) idx) ∧
    rangeBitCount (bitsToRanges (bitSlice cred.step_core_bitmap
        (nodeFirstBit (credShapes cred reps) idx)
        (nodeLastBit (credShapes cred reps) idx))) =
      popcountSlice cred.step_core_bitmap
        (nodeFirstBit (credShapes cred reps) idx)
        (nodeLastBit (credShapes cred reps) idx) := by
  have hwalk := coreSliceWalk_eq (credShapes cred reps) idx 0 hcover
  simp only [Nat.zero_add] at hwalk
  refine ⟨hwalk, ?_, ?_, ?_⟩
  · unfold format_core_allocs
    rw [hreps, hfind]
    have hge : ¬(idx ≥ cred.job_nhosts) := Nat.not_le.mpr hidx
    simp only [hge, if_false, hwalk, core_format_eq]
  · rw [popcountSlice, rangeBitCount_bitsToRanges]
  · rw [popcountSlice, rangeBitCount_bitsToRanges]

/-- Witness for C5: the sample credential projected onto node `n2`
(index 1, slice `[4, 8)` of the 8-bit global bitmap). -/
theorem format_core_allocs_spec_witness :
    format_core_allocs argSample "n2" 0 (some 0) =
      some { job_cores := renderRanges (bitsToRanges
               (bitSlice argSample.job_core_bitmap
                 (nodeFirstBit (credShapes argSample [2]) 1)
                 (nodeLastBit (credShapes argSample [2]) 1)))
             step_cores := renderRanges (bitsToRanges
               (bitSlice argSample.step_core_bitmap
                 (nodeFirstBit (credShapes argSample [2]) 1)
                 (nodeLastBit (credShapes argSample [2]) 1)))
             job_mem := (slurm_cred_get_mem argSample "n2" 0 (some 0)).1
             step_mem := (slurm_cred_get_mem argSample "n2" 0 (some 0)).2 } ∧
    rangeBitCount (bitsToRanges (bitSlice argSample.job_core_bitmap
        (nodeFirstBit (credShapes argSample [2]) 1)
        (nodeLastBit (credShapes argSample [2]) 1))) =
      popcountSlice argSample.job_core_bitmap
        (nodeFirstBit (credShapes argSample [2]) 1)
        (nodeLastBit (credShapes argSample [2]) 1) :=
  ⟨(format_core_allocs_spec argSample "n2" 0 (some 0) [2] 1 rfl (by decide)
      (by decide) (by decide)).2.1,
   (format_core_allocs_spec argSample "n2" 0 (some 0) [2] 1 rfl (by decide)
      (by decide) (by decide)).2.2.1⟩

end SlurmCred
